import Mathlib

/-!
Verification of the ollama-proxy streaming interception and call-tracking
subsystem: a shallow embedding of internal/types/types.go,
internal/tracker/tracker.go, internal/proxy/interceptor/response_forwarder.go,
internal/proxy/interceptor/interceptor.go and internal/proxy/proxy.go,
together with theorems about the embedded operations. Byte strings are
modelled as lists of characters, times as naturals (0 standing for the Go
zero time), map iteration as list order, and the fresh uuid of NewCall as a
caller-supplied identifier.
-/

namespace OllamaProxy

/-- Byte strings are modelled as lists of characters. -/
abbrev Bytes := List Char

/-- CallStatus from internal/types/types.go. -/
inductive CallStatus where
  | active
  | done
  | error
  | disconnected
deriving DecidableEq, Repr

/-- Call from internal/types/types.go: one observed request/response
exchange. EndTime is an optional time, unset at creation. -/
structure Call where
  id : String
  method : String
  endpoint : String
  status : CallStatus
  startTime : Nat
  endTime : Option Nat
  request : Bytes
  response : Bytes
deriving DecidableEq, Repr

/-- Call.UpdateResponse from types.go: appends data to the response. -/
def updateResponse (c : Call) (data : Bytes) : Call :=
  { c with response := c.response ++ data }

/-- Call.MarkDone from types.go: unconditionally records the current time as
endTime and sets the status to done. -/
def markDone (c : Call) (now : Nat) : Call :=
  { c with endTime := some now, status := .done }

/-- Call.MarkError from types.go: unconditionally records endTime and sets
the status to error. -/
def markError (c : Call) (now : Nat) : Call :=
  { c with endTime := some now, status := .error }

/-- Call.MarkDisconnected from types.go: unconditionally records endTime and
sets the status to disconnected. -/
def markDisconnected (c : Call) (now : Nat) : Call :=
  { c with endTime := some now, status := .disconnected }

/-- Event from types.go. -/
structure Event where
  id : String
  data : Bytes
  done : Bool
deriving DecidableEq, Repr

/-- One entry of the id-to-Call map. The String key doubles as the reference
(the Go pointer) through which the Call object is reached. -/
abbrev Entry := String × Call

/-- CallTracker from tracker.go. The buffered event channel is modelled as
the list of published events in order. -/
structure TrackerState where
  calls : List Entry
  maxCalls : Nat
  events : List Event
deriving DecidableEq, Repr

/-- The oldest-call scan inside CallTracker.NewCall (tracker.go): oldestTime
starts at the Go zero time (0) and an entry replaces the accumulator when the
accumulator still holds the zero time or the entry started strictly earlier. -/
def oldestAcc : List Entry → String × Nat → String × Nat
  | [], a => a
  | e :: es, a =>
      oldestAcc es (if a.2 = 0 ∨ e.2.startTime < a.2 then (e.1, e.2.startTime) else a)

/-- The oldestID computed by the eviction scan of NewCall, starting from the
empty id and the zero time. -/
def findOldestId (l : List Entry) : String := (oldestAcc l ("", 0)).1

/-- Go map assignment t.calls[k] = c: overwrite the existing key or add it. -/
def mapInsert (l : List Entry) (k : String) (c : Call) : List Entry :=
  if (l.find? fun e => e.1 = k).isSome then
    l.map fun e => if e.1 = k then (e.1, c) else e
  else l ++ [(k, c)]

/-- Mutation of the Call object reached through key k; Go mutates the object
in place through the pointer stored in the map. -/
def mapUpdate (l : List Entry) (k : String) (f : Call → Call) : List Entry :=
  l.map fun e => if e.1 = k then (e.1, f e.2) else e

/-- CallTracker.NewCall from tracker.go: when the store is at capacity the
scan picks oldestID and, when it is nonempty, deletes that entry; then the
fresh call is inserted and a creation event is published. -/
def newCall (ts : TrackerState) (method endpoint : String) (request : Bytes)
    (newId : String) (now : Nat) : TrackerState :=
  let calls1 :=
    if ts.maxCalls ≤ ts.calls.length then
      let oid := findOldestId ts.calls
      if oid = "" then ts.calls else ts.calls.filter fun e => e.1 ≠ oid
    else ts.calls
  let c : Call :=
    { id := newId, method := method, endpoint := endpoint, status := .active,
      startTime := now, endTime := none, request := request, response := [] }
  { ts with calls := mapInsert calls1 newId c,
            events := ts.events ++ [⟨newId, [], false⟩] }

/-- CallTracker.GetCall from tracker.go (also the dereference of a Call
through its map reference in a given state). -/
def getCall (ts : TrackerState) (id : String) : Option Call :=
  (ts.calls.find? fun e => e.1 = id).map (·.2)

/-- CallTracker.UpdateCall from tracker.go: when the id exists, append the
data through the call pointer and publish an event with that delta. -/
def updateCall (ts : TrackerState) (id : String) (data : Bytes) : TrackerState :=
  if (ts.calls.find? fun e => e.1 = id).isSome then
    { ts with calls := mapUpdate ts.calls id (fun c => updateResponse c data),
              events := ts.events ++ [⟨id, data, false⟩] }
  else ts

/-- CallTracker.CompleteCall from tracker.go: when the id exists, MarkDone
through the call pointer and publish a terminal event. -/
def completeCall (ts : TrackerState) (id : String) (now : Nat) : TrackerState :=
  if (ts.calls.find? fun e => e.1 = id).isSome then
    { ts with calls := mapUpdate ts.calls id (fun c => markDone c now),
              events := ts.events ++ [⟨id, [], true⟩] }
  else ts

/-- CallTracker.ErrorCall from tracker.go: when the id exists, MarkError
through the call pointer and publish a terminal event. -/
def errorCall (ts : TrackerState) (id : String) (now : Nat) : TrackerState :=
  if (ts.calls.find? fun e => e.1 = id).isSome then
    { ts with calls := mapUpdate ts.calls id (fun c => markError c now),
              events := ts.events ++ [⟨id, "Error occurred".toList, true⟩] }
  else ts

/-- Modelled from the spec: CallTracker.DisconnectCall is invoked by the
response forwarder (response_forwarder.go line 106) but its definition is
missing from the provided tracker sources. Per spec section 4.1, Disconnect(id)
transitions Active to Disconnected with the same terminality rule (a no-op
when the call is already terminal, or when the id is unknown) and publishes a
terminal Event. -/
def disconnectCall (ts : TrackerState) (id : String) (now : Nat) : TrackerState :=
  match ts.calls.find? fun e => e.1 = id with
  | some e =>
      if e.2.status = .active then
        { ts with calls := mapUpdate ts.calls id (fun c => markDisconnected c now),
                  events := ts.events ++ [⟨id, [], true⟩] }
      else ts
  | none => ts

/-- The inner j-loop of the sort in CallTracker.GetCalls: with calls[i] held
as the accumulator x, swap whenever x started strictly before calls[j].
Returns the element left at position i (the latest start seen) together with
the scanned tail in its post-swap order. -/
def selOnce (x : Entry) : List Entry → Entry × List Entry
  | [] => (x, [])
  | y :: ys =>
      if x.2.startTime < y.2.startTime then
        let r := selOnce y ys
        (r.1, x :: r.2)
      else
        let r := selOnce x ys
        (r.1, y :: r.2)

/-- The outer i-loop of the sort in GetCalls; the fuel bounds the number of
positions and equals the list length at the top-level call. -/
def sortCallsF : Nat → List Entry → List Entry
  | 0, l => l
  | _, [] => []
  | n + 1, x :: xs =>
      let r := selOnce x xs
      r.1 :: sortCallsF n r.2

/-- CallTracker.GetCalls from tracker.go: a freshly allocated slice of the
map values (each carried with its reference), sorted most-recently-started
first by the double swap loop. -/
def getCalls (ts : TrackerState) : List Entry :=
  sortCallsF ts.calls.length ts.calls

/-- Classification of a json.Unmarshal attempt in the terms used by
responseForwarder.Write together with isJSONErrorRecoverable
(response_forwarder.go): success, the recoverable unexpected-end-of-input
error, or any other (malformed) error. -/
inductive JsonResult where
  | ok
  | incomplete
  | malformed
deriving DecidableEq, Repr

/-- Scanner outcome while consuming one value: the input ended inside the
value, or an invalid character was met. -/
inductive PErr where
  | incomplete
  | malformed
deriving DecidableEq, Repr

/-- JSON whitespace as accepted by the encoding/json scanner. -/
def isWS (c : Char) : Bool :=
  c == ' ' || c == '\t' || c == '\n' || c == '\r'

def skipWS (cs : Bytes) : Bytes := cs.dropWhile isWS

def isHexCh (c : Char) : Bool :=
  c.isDigit || ('a' ≤ c && c ≤ 'f') || ('A' ≤ c && c ≤ 'F')

/-- Scan of a JSON string body after the opening quote, following the
encoding/json scanner: close on an unescaped quote, validate escapes and
four-digit hex escapes, reject raw control characters, and report an
unexpected end when the input stops inside the string. -/
def parseStringBody : Bytes → Except PErr Bytes
  | [] => .error .incomplete
  | '"' :: rest => .ok rest
  | '\\' :: 'u' :: h1 :: h2 :: h3 :: h4 :: rest =>
      if isHexCh h1 && isHexCh h2 && isHexCh h3 && isHexCh h4 then parseStringBody rest
      else .error .malformed
  | '\\' :: 'u' :: rest =>
      if rest.all isHexCh then .error .incomplete else .error .malformed
  | ['\\'] => .error .incomplete
  | '\\' :: e :: rest =>
      if e == '"' || e == '\\' || e == '/' || e == 'b' || e == 'f' ||
          e == 'n' || e == 'r' || e == 't' then
        parseStringBody rest
      else .error .malformed
  | c :: rest => if c.toNat < 32 then .error .malformed else parseStringBody rest

/-- Scan of the tail of a literal (true, false, null): a mismatching
character is invalid, running out of input is an unexpected end. -/
def expectLit : List Char → Bytes → Except PErr Bytes
  | [], cs => .ok cs
  | _ :: _, [] => .error .incomplete
  | l :: ls, c :: cs => if c == l then expectLit ls cs else .error .malformed

def digitTail (cs : Bytes) : Bytes := cs.dropWhile Char.isDigit

/-- Optional exponent part of a JSON number. -/
def numExp (cs : Bytes) : Except PErr Bytes :=
  match cs with
  | 'e' :: rest | 'E' :: rest =>
      let rest1 := match rest with
        | '+' :: r => r
        | '-' :: r => r
        | r => r
      match rest1 with
      | [] => .error .incomplete
      | c :: _ => if c.isDigit then .ok (digitTail rest1) else .error .malformed
  | _ => .ok cs

/-- Optional fraction part of a JSON number, then the exponent. -/
def numFrac (cs : Bytes) : Except PErr Bytes :=
  match cs with
  | '.' :: rest =>
      match rest with
      | [] => .error .incomplete
      | c :: _ => if c.isDigit then numExp (digitTail rest) else .error .malformed
  | _ => numExp cs

/-- Integer part of a JSON number after the optional leading minus: a single
zero, or a nonzero digit followed by digits. -/
def numBody (cs : Bytes) : Except PErr Bytes :=
  match cs with
  | [] => .error .incomplete
  | '0' :: rest => numFrac rest
  | c :: rest => if c.isDigit then numFrac (digitTail rest) else .error .malformed

/-- Scanner positions inside a composite value. -/
inductive JMode where
  | value
  | objOpen
  | objKey
  | objColon
  | objNext
  | arrOpen
  | arrNext
deriving Repr

/-- Recursive-descent scan of exactly one JSON value, following the
encoding/json state machine; the fuel only bounds the recursion depth and is
chosen larger than the input length at the top-level call. -/
def jsonStep : Nat → JMode → Bytes → Except PErr Bytes
  | 0, _, _ => .error .incomplete
  | n + 1, m, cs =>
    match m with
    | .value =>
      match cs with
      | [] => .error .incomplete
      | c :: rest =>
        if c == '{' then jsonStep n .objOpen rest
        else if c == '[' then jsonStep n .arrOpen rest
        else if c == '"' then parseStringBody rest
        else if c == 't' then expectLit ['r', 'u', 'e'] rest
        else if c == 'f' then expectLit ['a', 'l', 's', 'e'] rest
        else if c == 'n' then expectLit ['u', 'l', 'l'] rest
        else if c == '-' then numBody rest
        else if c.isDigit then numBody cs
        else .error .malformed
    | .objOpen =>
      match skipWS cs with
      | [] => .error .incomplete
      | c :: rest =>
        if c == '}' then .ok rest
        else if c == '"' then
          match parseStringBody rest with
          | .ok rest1 => jsonStep n .objColon rest1
          | .error e => .error e
        else .error .malformed
    | .objKey =>
      match skipWS cs with
      | [] => .error .incomplete
      | c :: rest =>
        if c == '"' then
          match parseStringBody rest with
          | .ok rest1 => jsonStep n .objColon rest1
          | .error e => .error e
        else .error .malformed
    | .objColon =>
      match skipWS cs with
      | [] => .error .incomplete
      | c :: rest =>
        if c == ':' then
          match jsonStep n .value (skipWS rest) with
          | .ok rest1 => jsonStep n .objNext rest1
          | .error e => .error e
        else .error .malformed
    | .objNext =>
      match skipWS cs with
      | [] => .error .incomplete
      | c :: rest =>
        if c == ',' then jsonStep n .objKey rest
        else if c == '}' then .ok rest
        else .error .malformed
    | .arrOpen =>
      match skipWS cs with
      | [] => .error .incomplete
      | c :: _ =>
        if c == ']' then .ok (skipWS cs).tail
        else
          match jsonStep n .value (skipWS cs) with
          | .ok rest1 => jsonStep n .arrNext rest1
          | .error e => .error e
    | .arrNext =>
      match skipWS cs with
      | [] => .error .incomplete
      | c :: rest =>
        if c == ',' then
          match jsonStep n .value (skipWS rest) with
          | .ok rest1 => jsonStep n .arrNext rest1
          | .error e => .error e
        else if c == ']' then .ok rest
        else .error .malformed

/-- json.Unmarshal(data, RawMessage) as classified by the Write switch in
response_forwarder.go: empty or whitespace-only input and any scan stopped by
the end of the input report the recoverable unexpected-end error; trailing
non-whitespace after one complete value, like every other invalid character,
is malformed. -/
def jsonDecode (cs : Bytes) : JsonResult :=
  match skipWS cs with
  | [] => .incomplete
  | c :: rest =>
    match jsonStep (cs.length + 1) .value (c :: rest) with
    | .error .incomplete => .incomplete
    | .error .malformed => .malformed
    | .ok rest1 => if (skipWS rest1).isEmpty then .ok else .malformed

/-- The effects a responseForwarder emits, in program order: writes and
status codes forwarded to the wrapped http.ResponseWriter, and the
UpdateCall, ErrorCall and DisconnectCall invocations it makes on the
tracker. -/
inductive Effect where
  | forwardData (b : Bytes)
  | forwardStatus (code : Nat)
  | trackUpdate (id : String) (data : Bytes)
  | trackError (id : String)
  | trackDisconnect (id : String)
deriving DecidableEq, Repr

/-- responseForwarder from response_forwarder.go. The wired tracker is never
nil in the intercepted path, so only the callID emptiness check of the source
guards the tracker calls; the done channel is modelled by the doneClosed
flag, and the effects emitted so far are accumulated in trace. -/
structure RF where
  callID : String
  errored : Bool
  buffer : Bytes
  doneClosed : Bool
  trace : List Effect
deriving DecidableEq, Repr

/-- The forwarder as built by Interceptor.InterceptRequest: wired to a call
id, not errored, empty buffer, no effects yet. -/
def initRF (id : String) : RF :=
  { callID := id, errored := false, buffer := [], doneClosed := false, trace := [] }

/-- responseForwarder.MarkError: a no-op when already errored; otherwise set
the sticky flag and notify the tracker when a call id is wired. -/
def markErrorRF (rf : RF) : RF :=
  if rf.errored then rf
  else
    let rf1 := { rf with errored := true }
    if rf.callID ≠ "" then { rf1 with trace := rf1.trace ++ [.trackError rf.callID] }
    else rf1

/-- responseForwarder.WriteHeader: mark the call errored for codes of 400 and
above, then forward the status code to the wrapped writer. -/
def writeHeaderRF (rf : RF) (code : Nat) : RF :=
  let rf1 := if 400 ≤ code then markErrorRF rf else rf
  { rf1 with trace := rf1.trace ++ [.forwardStatus code] }

/-- responseForwarder.Write: append the chunk to the buffer; on a full decode
report the buffered text to the tracker and forward it, on a recoverable
error keep buffering, on any other error drop the buffer and forward the
incoming chunk unchanged. -/
def writeRF (rf : RF) (data : Bytes) : RF :=
  let combined := rf.buffer ++ data
  match jsonDecode combined with
  | .ok =>
      let rf1 :=
        if rf.callID ≠ "" then
          { rf with trace := rf.trace ++ [.trackUpdate rf.callID combined] }
        else rf
      { rf1 with buffer := [], trace := rf1.trace ++ [.forwardData combined] }
  | .incomplete => { rf with buffer := combined }
  | .malformed => { rf with buffer := [], trace := rf.trace ++ [.forwardData data] }

/-- responseForwarder.Flush: forward any residual buffered bytes. -/
def flushRF (rf : RF) : RF :=
  if rf.buffer ≠ [] then
    { rf with buffer := [], trace := rf.trace ++ [.forwardData rf.buffer] }
  else rf

/-- responseForwarder.Close: the done channel is closed, signalling normal
completion to the watcher. -/
def closeRF (rf : RF) : RF := { rf with doneClosed := true }

/-- responseForwarder.handleClientDisconnect, invoked by the watcher
goroutine of setupContext when the request context fires: return early when
already errored or unwired; when both contexts were cancelled and the done
channel is not closed, disconnect the call and set the sticky flag. -/
def handleClientDisconnectRF (rf : RF) (reqCanceled parentCanceled : Bool) : RF :=
  if rf.errored ∨ rf.callID = "" then rf
  else if reqCanceled ∧ parentCanceled then
    if rf.doneClosed then rf
    else { rf with errored := true, trace := rf.trace ++ [.trackDisconnect rf.callID] }
  else rf

/-- A sequence of chunk writes relayed through the forwarder. -/
def writeAll (rf : RF) (chunks : List Bytes) : RF := chunks.foldl writeRF rf

/-- Holds when no step of the write sequence classifies its accumulated
buffer as malformed. -/
def noMalformed : RF → List Bytes → Bool
  | _, [] => true
  | rf, c :: cs =>
      !(jsonDecode (rf.buffer ++ c) == .malformed) && noMalformed (writeRF rf c) cs

/-- The data payloads forwarded to the wrapped response writer, in order. -/
def forwardedOf (t : List Effect) : List Bytes :=
  t.filterMap fun e => match e with
    | .forwardData b => some b
    | _ => none

/-- The response-append payloads reported to the tracker, in order. -/
def updatesOf (t : List Effect) : List Bytes :=
  t.filterMap fun e => match e with
    | .trackUpdate _ d => some d
    | _ => none

/-- The tracker-side meaning of one forwarder effect. -/
def applyEffect (ts : TrackerState) (now : Nat) : Effect → TrackerState
  | .forwardData _ => ts
  | .forwardStatus _ => ts
  | .trackUpdate id d => updateCall ts id d
  | .trackError id => errorCall ts id now
  | .trackDisconnect id => disconnectCall ts id now

/-- Result of reading a request body (io.ReadAll in InterceptRequest). -/
inductive BodyRead where
  | ok (body : Bytes)
  | fail
deriving DecidableEq, Repr

/-- What Interceptor.InterceptRequest returns and does: the decorated writer,
the replay-ready request body, the call id, the tracker after the call was
opened, and the local error response written via http.Error, when any. -/
structure InterceptResult where
  fw : Option RF
  req : Option Bytes
  callId : String
  tracker : TrackerState
  localError : Option (String × Nat)
deriving DecidableEq, Repr

/-- Interceptor.InterceptRequest from interceptor.go: a failed body read
writes a local 500 via http.Error and returns a nil writer, a nil request and
an empty id without touching the tracker; a successful read clones the
request around the captured bytes, opens a Call and wires a forwarder to it. -/
def interceptRequest (ts : TrackerState) (body : BodyRead)
    (method path newId : String) (now : Nat) : InterceptResult :=
  match body with
  | .fail =>
      { fw := none, req := none, callId := "", tracker := ts,
        localError := some ("Error reading request body", 500) }
  | .ok b =>
      { fw := some (initRF newId), req := some b, callId := newId,
        tracker := newCall ts method path b newId now, localError := none }

/-- Observable outcome of the intercepted branch of Proxy.ServeHTTP: the
tracker after interception, the locally written error response when any,
whether the relay engine was invoked and whether its writer and request
arguments were present (non-nil), and the id passed to CompleteCall when
control reaches it. -/
structure ServeOutcome where
  tracker : TrackerState
  localError : Option (String × Nat)
  relayWriterPresent : Option Bool
  relayRequestPresent : Option Bool
  completed : Option String
deriving DecidableEq, Repr

/-- The intercepted branch of Proxy.ServeHTTP from proxy.go: it always hands
the InterceptRequest results to p.proxy.ServeHTTP. The relay
(httputil.ReverseProxy.ServeHTTP, an external collaborator) immediately
dereferences its request argument, so with an absent request the handler
goroutine panics there and CompleteCall is never reached; the relay streaming
effects of the successful path flow through the forwarder model and are not
repeated here. -/
def serveHTTPIntercept (ts : TrackerState) (body : BodyRead)
    (method path newId : String) (now : Nat) : ServeOutcome :=
  let r := interceptRequest ts body method path newId now
  { tracker := r.tracker,
    localError := r.localError,
    relayWriterPresent := some r.fw.isSome,
    relayRequestPresent := some r.req.isSome,
    completed := if r.req.isSome then some r.callId else none }

/-- Concrete fixtures used by witnesses and counterexamples. -/
def cT : Call :=
  { id := "a", method := "POST", endpoint := "/api/chat", status := .active,
    startTime := 1, endTime := none, request := [], response := [] }

def tsT : TrackerState := { calls := [("a", cT)], maxCalls := 10, events := [] }

def cE : Call :=
  { id := "a", method := "POST", endpoint := "/api/chat", status := .error,
    startTime := 1, endTime := some 5, request := [], response := [] }

def tsE : TrackerState := { calls := [("a", cE)], maxCalls := 10, events := [] }

/-- The well-formed value written as the two characters of an object with one
numeric member, spelled as explicit characters. -/
def vA : Bytes := ['{', '"', 'a', '"', ':', '1', '}']

def vB : Bytes := ['{', '"', 'b', '"', ':', '2', '}']

/-- A split of vA ++ vB at a byte boundary inside the second value: the first
chunk is a strict initial part of vA, the second spans the boundary. -/
def chunk1 : Bytes := ['{', '"', 'a', '"', ':', '1']

def chunk2 : Bytes := ['}', '{', '"', 'b', '"', ':', '2', '}']

/-- The two chunks of the streaming scenario of spec section 8. -/
def chunkR1 : Bytes := ['{', '"', 'r', 'e', 's', 'p', 'o']

def chunkR2 : Bytes := ['n', 's', 'e', '"', ':', '"', 'h', 'i', '"', '}']

def cA : Call :=
  { id := "A", method := "POST", endpoint := "/api/chat", status := .active,
    startTime := 10, endTime := none, request := [], response := [] }

def cB : Call :=
  { id := "B", method := "POST", endpoint := "/api/chat", status := .active,
    startTime := 20, endTime := none, request := [], response := [] }

def tsAB : TrackerState := { calls := [("A", cA), ("B", cB)], maxCalls := 2, events := [] }

/-- The empty tracker with capacity 2 used by the eviction scenario. -/
def ts2 : TrackerState := { calls := [], maxCalls := 2, events := [] }

theorem find_mapUpdate (l : List Entry) (id : String) (f : Call → Call) :
    (mapUpdate l id f).find? (fun e => e.1 = id)
      = (l.find? fun e => e.1 = id).map (fun e => (e.1, f e.2)) := by
  induction l with
  | nil => simp [mapUpdate]
  | cons e es ih =>
      by_cases h : e.1 = id
      · simp [mapUpdate, List.find?, h]
      · simpa [mapUpdate, List.find?, h] using ih

theorem find_mapUpdate_ne (l : List Entry) (id id2 : String) (f : Call → Call)
    (h : id2 ≠ id) :
    (mapUpdate l id f).find? (fun e => e.1 = id2) = l.find? (fun e => e.1 = id2) := by
  induction l with
  | nil => rfl
  | cons e es ih =>
      simp only [mapUpdate, List.map_cons] at ih ⊢
      by_cases he2 : e.1 = id2
      · have he : ¬ e.1 = id := fun hx => h (by rw [← he2, hx])
        rw [if_neg he, List.find?_cons_of_pos _ (by simp [he2]),
          List.find?_cons_of_pos _ (by simp [he2])]
      · have hhead : ((if e.1 = id then (e.1, f e.2) else e).1 = id2) → False := by
          split <;> exact he2
        rw [List.find?_cons_of_neg _ (by simpa using hhead),
          List.find?_cons_of_neg _ (by simpa using he2)]
        exact ih

theorem getCall_state_mapUpdate (l : List Entry) (mc : Nat) (ev : List Event)
    (id : String) (f : Call → Call) :
    getCall ⟨mapUpdate l id f, mc, ev⟩ id
      = (l.find? (fun e => e.1 = id)).map (fun e => f e.2) := by
  show ((mapUpdate l id f).find? (fun e => e.1 = id)).map (·.2) = _
  rw [find_mapUpdate]
  cases l.find? (fun e => e.1 = id) <;> rfl

theorem find_of_getCall_some {ts : TrackerState} {id : String} {c : Call}
    (h : getCall ts id = some c) :
    ∃ e, (ts.calls.find? fun e => e.1 = id) = some e ∧ e.2 = c := by
  unfold getCall at h
  cases hx : ts.calls.find? fun e => e.1 = id with
  | none => rw [hx] at h; simp at h
  | some e => rw [hx] at h; simp at h; exact ⟨e, rfl, h⟩

/-- C10: for every id not present in the store, the CompleteCall and
ErrorCall operations of the tracker are no-ops: the state, including every
stored call and the event feed, is unchanged. -/
theorem terminal_unknown_id_noop (ts : TrackerState) (id : String) (now : Nat)
    (h : getCall ts id = none) :
    completeCall ts id now = ts ∧ errorCall ts id now = ts := by
  have hf : (ts.calls.find? fun e => e.1 = id) = none := by
    unfold getCall at h
    cases hx : ts.calls.find? fun e => e.1 = id with
    | none => rfl
    | some e => rw [hx] at h; simp at h
  constructor <;> simp [completeCall, errorCall, hf]

/-- Witness for C10 at a concrete store and the empty id. -/
theorem terminal_unknown_id_noop_witness :
    getCall tsT "" = none ∧ (completeCall tsT "" 5 = tsT ∧ errorCall tsT "" 5 = tsT) :=
  ⟨by decide, terminal_unknown_id_noop tsT "" 5 (by decide)⟩

/-- C8: UpdateCall with an unknown id leaves the tracker unchanged and
publishes nothing; with a known id it appends the text to that call response
(the old response extended by the text), leaves every other call unchanged,
and publishes exactly one event carrying the text as its data delta. -/
theorem updateCall_spec (ts : TrackerState) (id : String) (data : Bytes) :
    (getCall ts id = none → updateCall ts id data = ts) ∧
    (∀ c, getCall ts id = some c →
      getCall (updateCall ts id data) id = some { c with response := c.response ++ data } ∧
      (∀ id2, id2 ≠ id → getCall (updateCall ts id data) id2 = getCall ts id2) ∧
      (updateCall ts id data).events = ts.events ++ [⟨id, data, false⟩] ∧
      (updateCall ts id data).maxCalls = ts.maxCalls) := by
  constructor
  · intro h
    have hf : (ts.calls.find? fun e => e.1 = id) = none := by
      unfold getCall at h
      cases hx : ts.calls.find? fun e => e.1 = id with
      | none => rfl
      | some e => rw [hx] at h; simp at h
    simp [updateCall, hf]
  · intro c hc
    obtain ⟨e, he, hec⟩ := find_of_getCall_some hc
    have hs : (ts.calls.find? fun e => e.1 = id).isSome := by rw [he]; rfl
    refine ⟨?_, ?_, ?_, ?_⟩
    · rw [updateCall, if_pos hs]
      rw [getCall_state_mapUpdate, he]
      simp [hec, updateResponse]
    · intro id2 hid2
      rw [updateCall, if_pos hs]
      simp [getCall, find_mapUpdate_ne _ _ _ _ hid2]
    · rw [updateCall, if_pos hs]
    · rw [updateCall, if_pos hs]

/-- Witness for C8 at a concrete store: the known-id branch. -/
theorem updateCall_spec_witness :
    getCall tsT "a" = some cT ∧
      getCall (updateCall tsT "a" ['x']) "a"
        = some { cT with response := cT.response ++ ['x'] } :=
  ⟨by decide, ((updateCall_spec tsT "a" ['x']).2 cT (by decide)).1⟩

/-- C2 is false on the code: Call.MarkDone and Call.MarkError set status and
endTime unconditionally, so after ErrorCall has made the call terminal
(status error, endTime 5), a later CompleteCall still changes the status to
done and overwrites endTime with 9. -/
theorem terminal_overwrite_counterexample :
    (getCall (errorCall tsT "a" 5) "a").map (fun c => (c.status, c.endTime))
        = some (.error, some 5) ∧
      (getCall (completeCall (errorCall tsT "a" 5) "a" 9) "a").map
          (fun c => (c.status, c.endTime)) = some (.done, some 9) ∧
      getCall (completeCall (errorCall tsT "a" 5) "a" 9) "a"
        ≠ getCall (errorCall tsT "a" 5) "a" := by decide

/-- C2 amended: once a call is terminal, only the spec-modelled Disconnect is
a no-op; CompleteCall and ErrorCall on a present id always take effect,
overwriting both status and endTime with the latest invocation. -/
theorem terminal_transitions_amended (ts : TrackerState) (id : String) (now : Nat)
    (c : Call) (h : getCall ts id = some c) (hterm : c.status ≠ .active) :
    (getCall (completeCall ts id now) id).map (fun x => (x.status, x.endTime))
        = some (.done, some now) ∧
      (getCall (errorCall ts id now) id).map (fun x => (x.status, x.endTime))
        = some (.error, some now) ∧
      disconnectCall ts id now = ts := by
  obtain ⟨e, he, hec⟩ := find_of_getCall_some h
  have hs : (ts.calls.find? fun e => e.1 = id).isSome := by rw [he]; rfl
  refine ⟨?_, ?_, ?_⟩
  · rw [completeCall, if_pos hs, getCall_state_mapUpdate, he]
    simp [markDone]
  · rw [errorCall, if_pos hs, getCall_state_mapUpdate, he]
    simp [markError]
  · rw [disconnectCall, he]
    have hna : ¬ e.2.status = CallStatus.active := by rw [hec]; exact hterm
    simp [hna]

/-- Witness for the amended C2 at a concrete terminal call. -/
theorem terminal_transitions_amended_witness :
    (getCall tsE "a" = some cE ∧ cE.status ≠ .active) ∧
      (getCall (completeCall tsE "a" 9) "a").map (fun x => (x.status, x.endTime))
          = some (.done, some 9) ∧
        (getCall (errorCall tsE "a" 9) "a").map (fun x => (x.status, x.endTime))
          = some (.error, some 9) ∧
        disconnectCall tsE "a" 9 = tsE :=
  ⟨⟨by decide, by decide⟩, terminal_transitions_amended tsE "a" 9 cE (by decide) (by decide)⟩

/-- C4: invoking WriteHeader twice with codes of 400 and above notifies the
tracker of the error exactly once — the single ErrorCall effect sits before
the first forwarded status code, and the second invocation only forwards its
status. Applying that ErrorCall to a tracker holding the call marks it
Error. -/
theorem writeHeader_error_once (rf : RF) (c1 c2 : Nat) (ts : TrackerState)
    (cl : Call) (now : Nat)
    (hne : rf.errored = false) (hid : rf.callID ≠ "")
    (h1 : 400 ≤ c1) (h2 : 400 ≤ c2)
    (hcall : getCall ts rf.callID = some cl) :
    (writeHeaderRF (writeHeaderRF rf c1) c2).trace
        = rf.trace ++ [.trackError rf.callID, .forwardStatus c1, .forwardStatus c2] ∧
      (getCall (applyEffect ts now (.trackError rf.callID)) rf.callID).map (·.status)
        = some .error := by
  constructor
  · simp [writeHeaderRF, markErrorRF, hne, hid, h1, h2]
  · obtain ⟨e, he, hec⟩ := find_of_getCall_some hcall
    have hs : (ts.calls.find? fun x => x.1 = rf.callID).isSome := by rw [he]; rfl
    show (getCall (errorCall ts rf.callID now) rf.callID).map (·.status) = some .error
    rw [errorCall, if_pos hs, getCall_state_mapUpdate, he]
    simp [markError]

/-- Witness for C4 at a concrete forwarder, store and pair of 500 codes. -/
theorem writeHeader_error_once_witness :
    ((initRF "a").errored = false ∧ (initRF "a").callID ≠ "" ∧ (400:Nat) ≤ 500 ∧
        getCall tsT (initRF "a").callID = some cT) ∧
      (writeHeaderRF (writeHeaderRF (initRF "a") 500) 500).trace
          = (initRF "a").trace
              ++ [.trackError (initRF "a").callID, .forwardStatus 500, .forwardStatus 500] ∧
        (getCall (applyEffect tsT 7 (.trackError (initRF "a").callID))
            (initRF "a").callID).map (·.status) = some .error :=
  ⟨⟨by decide, by decide, by decide, by decide⟩,
    writeHeader_error_once (initRF "a") 500 500 tsT cT 7
      (by decide) (by decide) (by decide) (by decide) (by decide)⟩

/-- C5: with the call still Active in the store and the forwarder neither
errored nor done, a fired client-disconnect signal makes the watcher emit one
DisconnectCall, whose tracker-side effect sets the status to Disconnected and
records endTime; a repeated firing is a no-op on the forwarder, and when the
done marker was set by the normal completion path first the watcher emits
nothing at all. -/
theorem watcher_disconnect_once (rf : RF) (ts : TrackerState) (cl : Call) (now : Nat)
    (hne : rf.errored = false) (hnd : rf.doneClosed = false) (hid : rf.callID ≠ "")
    (hcall : getCall ts rf.callID = some cl) (hact : cl.status = .active) :
    (handleClientDisconnectRF rf true true).trace
        = rf.trace ++ [.trackDisconnect rf.callID] ∧
      (getCall (applyEffect ts now (.trackDisconnect rf.callID)) rf.callID).map
          (fun x => (x.status, x.endTime)) = some (.disconnected, some now) ∧
      handleClientDisconnectRF (handleClientDisconnectRF rf true true) true true
        = handleClientDisconnectRF rf true true ∧
      (∀ rf2 : RF, rf2.doneClosed = true → handleClientDisconnectRF rf2 true true = rf2) := by
  refine ⟨?_, ?_, ?_, ?_⟩
  · simp [handleClientDisconnectRF, hne, hnd, hid]
  · obtain ⟨e, he, hec⟩ := find_of_getCall_some hcall
    have hact2 : e.2.status = CallStatus.active := by rw [hec]; exact hact
    show (getCall (disconnectCall ts rf.callID now) rf.callID).map _ = _
    rw [disconnectCall, he]
    simp only [hact2, if_pos]
    rw [getCall_state_mapUpdate, he]
    simp [markDisconnected]
  · simp [handleClientDisconnectRF, hne, hnd, hid]
  · intro rf2 h2
    by_cases hx : rf2.errored = true
    · simp [handleClientDisconnectRF, hx]
    · simp [handleClientDisconnectRF, h2, hx]

/-- Witness for C5 at a concrete forwarder and store with an Active call. -/
theorem watcher_disconnect_once_witness :
    ((initRF "a").errored = false ∧ (initRF "a").doneClosed = false ∧
        (initRF "a").callID ≠ "" ∧ getCall tsT (initRF "a").callID = some cT ∧
        cT.status = .active) ∧
      (handleClientDisconnectRF (initRF "a") true true).trace
          = (initRF "a").trace ++ [.trackDisconnect (initRF "a").callID] ∧
        (getCall (applyEffect tsT 7 (.trackDisconnect (initRF "a").callID))
            (initRF "a").callID).map (fun x => (x.status, x.endTime))
          = some (.disconnected, some 7) :=
  ⟨⟨by decide, by decide, by decide, by decide, by decide⟩,
    ((watcher_disconnect_once (initRF "a") tsT cT 7
        (by decide) (by decide) (by decide) (by decide) (by decide)).1),
    ((watcher_disconnect_once (initRF "a") tsT cT 7
        (by decide) (by decide) (by decide) (by decide) (by decide)).2.1)⟩

/-- C6, behavior of the code at the failing input: when the body read fails,
no call is created (the tracker is unchanged), the client receives the local
500 response, and the tracker itself is untouched; however the intercepted
branch of ServeHTTP does not abort — it still invokes the relay engine with
the writer and the request both absent (nil), where the external relay
dereferences the nil request and the handler panics, so CompleteCall is never
reached. -/
theorem interceptFailure_behavior (ts : TrackerState) (method path newId : String)
    (now : Nat) :
    serveHTTPIntercept ts .fail method path newId now
      = { tracker := ts, localError := some ("Error reading request body", 500),
          relayWriterPresent := some false, relayRequestPresent := some false,
          completed := none } := rfl

theorem forwardedOf_append (t1 t2 : List Effect) :
    forwardedOf (t1 ++ t2) = forwardedOf t1 ++ forwardedOf t2 := by
  simp [forwardedOf]

theorem updatesOf_append (t1 t2 : List Effect) :
    updatesOf (t1 ++ t2) = updatesOf t1 ++ updatesOf t2 := by
  simp [updatesOf]

theorem writeRF_ok (rf : RF) (data : Bytes)
    (h : jsonDecode (rf.buffer ++ data) = .ok) (hid : rf.callID ≠ "") :
    writeRF rf data
      = { rf with buffer := [], trace := rf.trace ++ [.trackUpdate rf.callID (rf.buffer ++ data), .forwardData (rf.buffer ++ data)] } := by
  simp [writeRF, h, hid]

theorem writeRF_ok_noid (rf : RF) (data : Bytes)
    (h : jsonDecode (rf.buffer ++ data) = .ok) (hid : rf.callID = "") :
    writeRF rf data
      = { rf with buffer := [], trace := rf.trace ++ [.forwardData (rf.buffer ++ data)] } := by
  simp [writeRF, h, hid]

theorem writeRF_incomplete (rf : RF) (data : Bytes)
    (h : jsonDecode (rf.buffer ++ data) = .incomplete) :
    writeRF rf data = { rf with buffer := rf.buffer ++ data } := by
  simp [writeRF, h]

theorem writeRF_malformed (rf : RF) (data : Bytes)
    (h : jsonDecode (rf.buffer ++ data) = .malformed) :
    writeRF rf data = { rf with buffer := [], trace := rf.trace ++ [.forwardData data] } := by
  simp [writeRF, h]

/-- Invariant of the write loop on malformed-free runs: both the forwarded
stream and the reported appends, completed by the pending buffer, equal the
input stream consumed so far. -/
theorem writeAll_stream_inv (chunks : List Bytes) : ∀ rf : RF, rf.callID ≠ "" →
    noMalformed rf chunks = true →
    ((forwardedOf (writeAll rf chunks).trace).flatten ++ (writeAll rf chunks).buffer
        = (forwardedOf rf.trace).flatten ++ rf.buffer ++ chunks.flatten) ∧
      ((updatesOf (writeAll rf chunks).trace).flatten ++ (writeAll rf chunks).buffer
        = (updatesOf rf.trace).flatten ++ rf.buffer ++ chunks.flatten) := by
  induction chunks with
  | nil => intro rf _ _; simp [writeAll]
  | cons c cs ih =>
      intro rf hid h
      have h' : ((jsonDecode (rf.buffer ++ c) == JsonResult.malformed) = false)
          ∧ noMalformed (writeRF rf c) cs = true := by
        simpa [noMalformed, Bool.and_eq_true] using h
      have hw : writeAll rf (c :: cs) = writeAll (writeRF rf c) cs := rfl
      cases hdec : jsonDecode (rf.buffer ++ c) with
      | malformed => rw [hdec] at h'; simp at h'
      | ok =>
          have hstep := writeRF_ok rf c hdec hid
          have hid2 : (writeRF rf c).callID ≠ "" := by rw [hstep]; exact hid
          obtain ⟨i1, i2⟩ := ih (writeRF rf c) hid2 h'.2
          rw [hw]
          constructor
          · rw [i1, hstep]
            simp [forwardedOf_append, forwardedOf, List.append_assoc]
          · rw [i2, hstep]
            simp [updatesOf_append, updatesOf, List.append_assoc]
      | incomplete =>
          have hstep := writeRF_incomplete rf c hdec
          have hid2 : (writeRF rf c).callID ≠ "" := by rw [hstep]; exact hid
          obtain ⟨i1, i2⟩ := ih (writeRF rf c) hid2 h'.2
          rw [hw]
          constructor
          · rw [i1, hstep]
            simp [List.append_assoc]
          · rw [i2, hstep]
            simp [List.append_assoc]

/-- Every response-append the write loop ever reports to the tracker is a
buffer that decoded as one complete value. -/
theorem updates_decode_ok (chunks : List Bytes) : ∀ rf : RF,
    ∀ u ∈ updatesOf (writeAll rf chunks).trace,
      u ∈ updatesOf rf.trace ∨ jsonDecode u = .ok := by
  induction chunks with
  | nil => intro rf u hu; exact .inl hu
  | cons c cs ih =>
      intro rf u hu
      have hw : writeAll rf (c :: cs) = writeAll (writeRF rf c) cs := rfl
      rw [hw] at hu
      rcases ih (writeRF rf c) u hu with h | h
      · cases hdec : jsonDecode (rf.buffer ++ c) with
        | ok =>
            by_cases hid : rf.callID = ""
            · rw [writeRF_ok_noid rf c hdec hid, updatesOf_append] at h
              have h2 : updatesOf [Effect.forwardData (rf.buffer ++ c)] = [] := rfl
              rw [h2, List.append_nil] at h
              exact .inl h
            · rw [writeRF_ok rf c hdec hid, updatesOf_append] at h
              have h2 : updatesOf [Effect.trackUpdate rf.callID (rf.buffer ++ c),
                  Effect.forwardData (rf.buffer ++ c)] = [rf.buffer ++ c] := rfl
              rw [h2] at h
              rcases List.mem_append.mp h with h3 | h3
              · exact .inl h3
              · simp at h3
                exact .inr (h3 ▸ hdec)
        | incomplete =>
            rw [writeRF_incomplete rf c hdec] at h
            exact .inl h
        | malformed =>
            rw [writeRF_malformed rf c hdec, updatesOf_append] at h
            have h2 : updatesOf [Effect.forwardData c] = [] := rfl
            rw [h2, List.append_nil] at h
            exact .inl h
      · exact .inr h

/-- C1 amended: for every chunk sequence in which each accumulated buffer
decodes as either one complete value or an incomplete one (never malformed,
so no chunk spans a value boundary) and whose final buffer is empty, the
bytes forwarded to the client equal the original concatenation exactly, and
the response appends received by the tracker are complete well-formed values
whose concatenation is also exactly the original stream. -/
theorem write_reassembly_amended (id : String) (chunks : List Bytes)
    (hid : id ≠ "")
    (hnm : noMalformed (initRF id) chunks = true)
    (hbuf : (writeAll (initRF id) chunks).buffer = []) :
    (forwardedOf (writeAll (initRF id) chunks).trace).flatten = chunks.flatten ∧
      (updatesOf (writeAll (initRF id) chunks).trace).flatten = chunks.flatten ∧
      ∀ u ∈ updatesOf (writeAll (initRF id) chunks).trace, jsonDecode u = .ok := by
  obtain ⟨i1, i2⟩ := writeAll_stream_inv chunks (initRF id) hid hnm
  rw [hbuf] at i1 i2
  simp [initRF, forwardedOf, updatesOf] at i1 i2
  refine ⟨i1, i2, ?_⟩
  intro u hu
  rcases updates_decode_ok chunks (initRF id) u hu with h | h
  · simp [initRF, updatesOf] at h
  · exact h

/-- Witness for the amended C1 on the split-object scenario of spec
section 8. -/
theorem write_reassembly_amended_witness :
    (("c" : String) ≠ "" ∧ noMalformed (initRF "c") [chunkR1, chunkR2] = true ∧
        (writeAll (initRF "c") [chunkR1, chunkR2]).buffer = []) ∧
      (forwardedOf (writeAll (initRF "c") [chunkR1, chunkR2]).trace).flatten
          = [chunkR1, chunkR2].flatten ∧
        (updatesOf (writeAll (initRF "c") [chunkR1, chunkR2]).trace).flatten
          = [chunkR1, chunkR2].flatten :=
  ⟨⟨by decide, by decide, by decide⟩,
    (write_reassembly_amended "c" [chunkR1, chunkR2] (by decide) (by decide) (by decide)).1,
    (write_reassembly_amended "c" [chunkR1, chunkR2] (by decide) (by decide) (by decide)).2.1⟩

/-- C1 as stated is false on the code: splitting the two well-formed values
vA and vB as chunk1, chunk2 (the second chunk spans the value boundary) makes
the second accumulated buffer malformed, so the Write loop forwards only the
incoming chunk — the buffered start of vA never reaches the client — and the
tracker receives zero response appends instead of two. -/
theorem write_split_counterexample :
    jsonDecode vA = .ok ∧ jsonDecode vB = .ok ∧
      [chunk1, chunk2].flatten = [vA, vB].flatten ∧
      (forwardedOf (writeAll (initRF "c") [chunk1, chunk2]).trace).flatten
        ≠ [vA, vB].flatten ∧
      (updatesOf (writeAll (initRF "c") [chunk1, chunk2]).trace).length = 0 := by
  decide

/-- C7 amended: when the accumulation buffer is empty and a single Write
receives a chunk that the decoder classifies as malformed — as happens for
two concatenated well-formed objects with no separator, though not for every
pair of well-formed values — the chunk is forwarded to the client
byte-for-byte unchanged, no tracker response-append is produced, and the
buffer stays clear. -/
theorem malformed_chunk_passthrough (id : String) (v1 v2 : Bytes)
    (h1 : jsonDecode v1 = .ok) (h2 : jsonDecode v2 = .ok)
    (hm : jsonDecode (v1 ++ v2) = .malformed) :
    forwardedOf (writeRF (initRF id) (v1 ++ v2)).trace = [v1 ++ v2] ∧
      updatesOf (writeRF (initRF id) (v1 ++ v2)).trace = [] ∧
      (writeRF (initRF id) (v1 ++ v2)).buffer = [] := by
  have hb : (initRF id).buffer ++ (v1 ++ v2) = v1 ++ v2 := by simp [initRF]
  rw [writeRF_malformed (initRF id) (v1 ++ v2) (by rw [hb]; exact hm)]
  refine ⟨rfl, rfl, rfl⟩

/-- Witness for the amended C7 on two concrete concatenated objects. -/
theorem malformed_chunk_passthrough_witness :
    (jsonDecode vA = .ok ∧ jsonDecode vB = .ok ∧
        jsonDecode (vA ++ vB) = .malformed) ∧
      forwardedOf (writeRF (initRF "c") (vA ++ vB)).trace = [vA ++ vB] ∧
        updatesOf (writeRF (initRF "c") (vA ++ vB)).trace = [] :=
  ⟨⟨by decide, by decide, by decide⟩,
    (malformed_chunk_passthrough "c" vA vB (by decide) (by decide) (by decide)).1,
    (malformed_chunk_passthrough "c" vA vB (by decide) (by decide) (by decide)).2.1⟩

/-- C7 as stated is false for scalar values: the chunk 123 is the
concatenation of the two well-formed values 1 and 23 with no separator, yet
the decode of the whole chunk succeeds as one well-formed number instead of
failing as malformed, and a tracker response-append IS produced for it. -/
theorem concat_values_decode_counterexample :
    jsonDecode ['1'] = .ok ∧ jsonDecode ['2', '3'] = .ok ∧
      jsonDecode (['1'] ++ ['2', '3']) ≠ .malformed ∧
      updatesOf (writeRF (initRF "c") (['1'] ++ ['2', '3'])).trace
        = [['1', '2', '3']] := by
  decide

/-- Characterization of the eviction scan of NewCall: starting from a
nonzero accumulator and scanning entries with nonzero start times, the
result is the accumulator or one of the entries, and its time is the minimum
of the accumulator time and all scanned start times. -/
theorem oldestAcc_spec (l : List Entry) : ∀ a : String × Nat, a.2 ≠ 0 →
    (∀ e ∈ l, e.2.startTime ≠ 0) →
    ((oldestAcc l a = a ∨ ∃ e ∈ l, oldestAcc l a = (e.1, e.2.startTime)) ∧
      (oldestAcc l a).2 ≤ a.2 ∧ ∀ e ∈ l, (oldestAcc l a).2 ≤ e.2.startTime) := by
  induction l with
  | nil => intro a _ _; exact ⟨.inl rfl, le_refl _, by simp⟩
  | cons e es ih =>
      intro a ha hl
      have he0 : e.2.startTime ≠ 0 := hl e (by simp)
      have hes : ∀ x ∈ es, x.2.startTime ≠ 0 := fun x hx => hl x (by simp [hx])
      by_cases hc : e.2.startTime < a.2
      · have hstep : oldestAcc (e :: es) a = oldestAcc es (e.1, e.2.startTime) := by
          simp only [oldestAcc]
          rw [if_pos (Or.inr hc)]
        obtain ⟨m1, m2, m3⟩ := ih (e.1, e.2.startTime) he0 hes
        refine ⟨?_, ?_, ?_⟩
        · rcases m1 with h | ⟨x, hx1, hx2⟩
          · exact .inr ⟨e, by simp, by rw [hstep, h]⟩
          · exact .inr ⟨x, by simp [hx1], by rw [hstep, hx2]⟩
        · rw [hstep]; exact le_trans m2 (le_of_lt hc)
        · intro x hx
          rcases List.mem_cons.mp hx with h | h
          · rw [hstep, h]; exact m2
          · rw [hstep]; exact m3 x h
      · have hstep : oldestAcc (e :: es) a = oldestAcc es a := by
          simp only [oldestAcc]
          rw [if_neg (not_or.mpr ⟨ha, hc⟩)]
        obtain ⟨m1, m2, m3⟩ := ih a ha hes
        refine ⟨?_, ?_, ?_⟩
        · rcases m1 with h | ⟨x, hx1, hx2⟩
          · exact .inl (by rw [hstep, h])
          · exact .inr ⟨x, by simp [hx1], by rw [hstep, hx2]⟩
        · rw [hstep]; exact m2
        · intro x hx
          rcases List.mem_cons.mp hx with h | h
          · rw [hstep, h]; exact le_trans m2 (Nat.le_of_not_lt hc)
          · rw [hstep]; exact m3 x h

/-- The eviction scan returns the id of the strictly earliest-started entry
when all start times are nonzero. -/
theorem findOldestId_min (l : List Entry) (m : Entry)
    (hm : m ∈ l) (h0 : ∀ e ∈ l, e.2.startTime ≠ 0)
    (hmin : ∀ e ∈ l, e ≠ m → m.2.startTime < e.2.startTime) :
    findOldestId l = m.1 := by
  cases l with
  | nil => cases hm
  | cons e0 es =>
      have hstep : oldestAcc (e0 :: es) ("", 0) = oldestAcc es (e0.1, e0.2.startTime) := by
        simp only [oldestAcc]
        simp
      have h00 : e0.2.startTime ≠ 0 := h0 e0 (by simp)
      have hes : ∀ x ∈ es, x.2.startTime ≠ 0 := fun x hx => h0 x (by simp [hx])
      obtain ⟨m1, m2, m3⟩ := oldestAcc_spec es (e0.1, e0.2.startTime) h00 hes
      have hrall : ∀ x ∈ e0 :: es, (oldestAcc es (e0.1, e0.2.startTime)).2 ≤ x.2.startTime := by
        intro x hx
        rcases List.mem_cons.mp hx with h | h
        · rw [h]; exact m2
        · exact m3 x h
      have hex : ∃ x ∈ e0 :: es, oldestAcc es (e0.1, e0.2.startTime) = (x.1, x.2.startTime) := by
        rcases m1 with h | ⟨x, hx1, hx2⟩
        · exact ⟨e0, by simp, h⟩
        · exact ⟨x, by simp [hx1], hx2⟩
      obtain ⟨x, hx1, hx2⟩ := hex
      by_cases hxm : x = m
      · show (oldestAcc (e0 :: es) ("", 0)).1 = m.1
        rw [hstep, hx2, hxm]
      · exfalso
        have h1 : m.2.startTime < x.2.startTime := hmin x hx1 hxm
        have h2 := hrall m hm
        rw [hx2] at h2
        exact absurd (lt_of_lt_of_le h1 h2) (lt_irrefl _)

/-- C3: creating a call when the store holds exactly maxCalls entries (all
start times nonzero, m the unique earliest, its id nonempty, the fresh id
unused) evicts exactly m before inserting the fresh Active call at the end,
keeping the store size unchanged; and the concrete capacity-2 scenario —
create A, B, C at strictly increasing times — retains exactly B and C. -/
theorem newCall_eviction (ts : TrackerState) (m : Entry)
    (method endpoint : String) (request : Bytes) (nid : String) (now : Nat)
    (hfull : ts.calls.length = ts.maxCalls)
    (h0 : ∀ e ∈ ts.calls, e.2.startTime ≠ 0)
    (hm : m ∈ ts.calls)
    (hmin : ∀ e ∈ ts.calls, e ≠ m → m.2.startTime < e.2.startTime)
    (hmid : m.1 ≠ "")
    (hnid : ∀ e ∈ ts.calls, e.1 ≠ nid) :
    ((newCall ts method endpoint request nid now).calls
        = (ts.calls.filter fun e => e.1 ≠ m.1)
            ++ [(nid, { id := nid, method := method, endpoint := endpoint,
                        status := .active, startTime := now, endTime := none,
                        request := request, response := [] })]) ∧
      ((newCall (newCall (newCall ts2 "POST" "/api/chat" [] "A" 10)
            "POST" "/api/chat" [] "B" 20) "POST" "/api/chat" [] "C" 30).calls.map
          (fun e => e.1) = ["B", "C"]) := by
  constructor
  · have hoid : findOldestId ts.calls = m.1 := findOldestId_min ts.calls m hm h0 hmin
    have hcap : ts.maxCalls ≤ ts.calls.length := le_of_eq hfull.symm
    have hfind : ((ts.calls.filter fun e => e.1 ≠ m.1).find? fun e => e.1 = nid) = none := by
      rw [List.find?_eq_none]
      intro x hx
      have hxl : x ∈ ts.calls := (List.mem_filter.mp hx).1
      simpa using hnid x hxl
    simp only [newCall, mapInsert, hoid]
    rw [if_pos hcap, if_neg hmid, hfind]
    rfl
  · decide

/-- Witness for C3 at the concrete full store holding A and B. -/
theorem newCall_eviction_witness :
    (tsAB.calls.length = tsAB.maxCalls ∧
        (∀ e ∈ tsAB.calls, e.2.startTime ≠ 0) ∧
        ("A", cA) ∈ tsAB.calls ∧
        (∀ e ∈ tsAB.calls, e ≠ ("A", cA) → (("A", cA) : Entry).2.startTime < e.2.startTime) ∧
        (∀ e ∈ tsAB.calls, e.1 ≠ "C")) ∧
      (newCall tsAB "POST" "/api/chat" [] "C" 30).calls
        = (tsAB.calls.filter fun e => e.1 ≠ "A")
            ++ [("C", { id := "C", method := "POST", endpoint := "/api/chat",
                        status := .active, startTime := 30, endTime := none,
                        request := [], response := [] })] :=
  ⟨⟨by decide, by decide, by decide, by decide, by decide⟩,
    (newCall_eviction tsAB ("A", cA) "POST" "/api/chat" [] "C" 30
        (by decide) (by decide) (by decide) (by decide) (by decide) (by decide)).1⟩

theorem selOnce_len (x : Entry) (l : List Entry) :
    (selOnce x l).2.length = l.length := by
  induction l generalizing x with
  | nil => rfl
  | cons y ys ih =>
      by_cases h : x.2.startTime < y.2.startTime <;>
        simp [selOnce, h, ih]

theorem selOnce_perm (x : Entry) (l : List Entry) :
    List.Perm ((selOnce x l).1 :: (selOnce x l).2) (x :: l) := by
  induction l generalizing x with
  | nil => exact List.Perm.refl _
  | cons y ys ih =>
      by_cases h : x.2.startTime < y.2.startTime
      · simp only [selOnce, if_pos h]
        exact (List.Perm.swap x (selOnce y ys).1 (selOnce y ys).2).trans ((ih y).cons x)
      · simp only [selOnce, if_neg h]
        exact ((List.Perm.swap y (selOnce x ys).1 (selOnce x ys).2).trans
          ((ih x).cons y)).trans (List.Perm.swap x y ys)

theorem selOnce_head_le (x : Entry) (l : List Entry) :
    x.2.startTime ≤ (selOnce x l).1.2.startTime := by
  induction l generalizing x with
  | nil => exact le_refl _
  | cons y ys ih =>
      by_cases h : x.2.startTime < y.2.startTime
      · simp only [selOnce, if_pos h]
        exact le_trans (le_of_lt h) (ih y)
      · simp only [selOnce, if_neg h]
        exact ih x

theorem selOnce_max (x : Entry) (l : List Entry) :
    ∀ e ∈ (selOnce x l).2, e.2.startTime ≤ (selOnce x l).1.2.startTime := by
  induction l generalizing x with
  | nil => intro e he; simp [selOnce] at he
  | cons y ys ih =>
      intro e he
      by_cases h : x.2.startTime < y.2.startTime
      · simp only [selOnce, if_pos h] at he ⊢
        rcases List.mem_cons.mp he with rfl | he2
        · exact le_trans (le_of_lt h) (selOnce_head_le y ys)
        · exact ih y e he2
      · simp only [selOnce, if_neg h] at he ⊢
        rcases List.mem_cons.mp he with rfl | he2
        · exact le_trans (Nat.le_of_not_lt h) (selOnce_head_le x ys)
        · exact ih x e he2

theorem sortCallsF_perm : ∀ (n : Nat) (l : List Entry), l.length ≤ n →
    List.Perm (sortCallsF n l) l := by
  intro n
  induction n with
  | zero =>
      intro l _
      simp only [sortCallsF]
      exact List.Perm.refl l
  | succ n ih =>
      intro l hl
      cases l with
      | nil => exact List.Perm.refl _
      | cons x xs =>
          simp only [sortCallsF]
          have hlen : (selOnce x xs).2.length ≤ n := by
            rw [selOnce_len]; exact Nat.le_of_succ_le_succ hl
          exact ((ih _ hlen).cons _).trans (selOnce_perm x xs)

theorem sortCallsF_sorted : ∀ (n : Nat) (l : List Entry), l.length ≤ n →
    (sortCallsF n l).Sorted (fun a b => b.2.startTime ≤ a.2.startTime) := by
  intro n
  induction n with
  | zero =>
      intro l h
      have : l = [] := List.length_eq_zero.mp (Nat.le_zero.mp h)
      subst this
      simp only [sortCallsF]
      exact List.sorted_nil
  | succ n ih =>
      intro l hl
      cases l with
      | nil => exact List.sorted_nil
      | cons x xs =>
          simp only [sortCallsF]
          have hlen : (selOnce x xs).2.length ≤ n := by
            rw [selOnce_len]; exact Nat.le_of_succ_le_succ hl
          rw [List.sorted_cons]
          refine ⟨?_, ih _ hlen⟩
          intro b hb
          have hb2 : b ∈ (selOnce x xs).2 := (sortCallsF_perm n _ hlen).mem_iff.mp hb
          exact selOnce_max x xs b hb2

/-- C9 amended: GetCalls returns a freshly built list holding all stored
calls sorted most-recently-started first (non-increasing startTime), but its
elements are references into the live store, not independent copies: a later
UpdateCall is visible when reading through a reference obtained from the
earlier snapshot. -/
theorem getCalls_sorted_shared (ts : TrackerState) :
    (getCalls ts).Sorted (fun a b => b.2.startTime ≤ a.2.startTime) ∧
      List.Perm (getCalls ts) ts.calls ∧
      (∀ id data c, getCall ts id = some c →
        getCall (updateCall ts id data) id
          = some { c with response := c.response ++ data }) := by
  refine ⟨sortCallsF_sorted _ _ (le_refl _), sortCallsF_perm _ _ (le_refl _), ?_⟩
  intro id data c hc
  obtain ⟨e, he, hec⟩ := find_of_getCall_some hc
  have hs : (ts.calls.find? fun e => e.1 = id).isSome := by rw [he]; rfl
  rw [updateCall, if_pos hs, getCall_state_mapUpdate, he]
  simp [hec, updateResponse]

/-- Witness for the amended C9: the snapshot of the one-call store is sorted
and mutation through the shared reference is visible. -/
theorem getCalls_sorted_shared_witness :
    getCall tsT "a" = some cT ∧
      getCall (updateCall tsT "a" ['x']) "a"
        = some { cT with response := cT.response ++ ['x'] } :=
  ⟨by decide, (getCalls_sorted_shared tsT).2.2 "a" ['x'] cT (by decide)⟩

/-- C9 as stated is false in its independence part: the snapshot returned by
GetCalls for the one-call store carries the reference a to the live Call
object, and after a later UpdateCall the call read through that reference
differs from the snapshot value — the snapshot shares mutable state with the
tracker instead of being an independent copy. -/
theorem getCalls_alias_counterexample :
    getCalls tsT = [("a", cT)] ∧
      getCall (updateCall tsT "a" ['x']) "a" ≠ some cT := by
  decide

end OllamaProxy

